import Mathlib

/-!
PortConf and UPF map records: a verification development.

Shallow embedding of

* `core/drivers/port_conf.cc` / `core/utils/port_conf.h` (class `PortConf`):
  interface resolution, MAC formatting, MAC validation and MAC parsing;
* `core/gate_hooks/upf_bpf_structs.h`: the packed key records of the PDR and
  FAR maps, the FAR action codes and the colour markers.

Conventions.  A `std::string` is a Lean `String`, one `Char` per `char`; all
characters the code distinguishes (hex digits, `:`, `-`, `x`, signs, white
space, NUL) are ASCII.  Machine integers are `Nat`/`Int` with explicit
reduction modulo `2^w` where the width matters.  A C++ exception is the
`.error` case of `Except`.
-/

/-- The data members of `class PortConf` (`port_conf.h`); `if_index_` is an
`int`. -/
structure PortConf where
  if_name_ : String
  if_index_ : Int
  mac_address_ : String
  mac_dst_address_ : String
  deriving DecidableEq, Repr

/-- What the operating system answers during `PortConf::PortConf(name)`: the
result of `if_nametoindex`, of `socket`, of `ioctl(SIOCGIFHWADDR)`, the `errno`
the failing `ioctl` leaves, the bytes of `ifr.ifr_hwaddr.sa_data`, the bytes
the uninitialised buffer `mac[32]` happens to hold, and `strerror`. -/
structure OsAnswers where
  if_nametoindex : Nat
  socket : Int
  ioctl : Int
  errno : Int
  sa_data : List Nat
  scratch : List Nat
  strerror : Int → String

namespace PortConf

/-! ## Character classes of the C library ("C" locale) -/

/-- C `isspace`: space, `\t`, `\n`, `\v`, `\f`, `\r`. -/
def isspace (c : Char) : Bool :=
  c.toNat == 32 || (9 ≤ c.toNat && c.toNat ≤ 13)

/-- C `isxdigit`, also the bracket expression `[0-9A-Fa-f]`. -/
def isxdigit (c : Char) : Bool :=
  (48 ≤ c.toNat && c.toNat ≤ 57) || (65 ≤ c.toNat && c.toNat ≤ 70) ||
    (97 ≤ c.toNat && c.toNat ≤ 102)

/-- Numeric value of a hexadecimal digit character (0 for any other). -/
def xdigitVal (c : Char) : Nat :=
  if 48 ≤ c.toNat ∧ c.toNat ≤ 57 then c.toNat - 48
  else if 65 ≤ c.toNat ∧ c.toNat ≤ 70 then c.toNat - 55
  else if 97 ≤ c.toNat ∧ c.toNat ≤ 102 then c.toNat - 87
  else 0

/-- The result of `std::string::c_str()` as seen by a C function: the
characters before the first NUL. -/
def c_str (s : String) : List Char :=
  s.data.takeWhile (fun c => c.toNat != 0)

/-! ## `sscanf` for formats made of `%<width>x` and ordinary characters -/

/-- One directive of a `scanf` format. -/
inductive Directive where
  | conv_x (width : Nat)
  | ordinary (c : Char)
  deriving DecidableEq, Repr

/-- Decimal value of a run of digit characters (the field width). -/
def readWidth (ds : List Char) : Nat :=
  ds.foldl (fun acc c => 10 * acc + (c.toNat - 48)) 0

/-- Split a format string into directives: `%`, a decimal field width and `x`
form a conversion, any other character stands for itself.  `none` for a format
outside this fragment. -/
def parseFormat : Nat → List Char → Option (List Directive)
  | 0, _ => none
  | _, [] => some []
  | fuel + 1, c :: cs =>
    if c = '%' then
      let w := cs.takeWhile Char.isDigit
      match cs.dropWhile Char.isDigit with
      | 'x' :: rest => (parseFormat fuel rest).map (fun ds => Directive.conv_x (readWidth w) :: ds)
      | _ => none
    else (parseFormat fuel cs).map (fun ds => Directive.ordinary c :: ds)

/-- Why a directive stopped the scan. -/
inductive ScanStop where
  | input_error
  | conv_error
  deriving DecidableEq, Repr

/-- Value of a run of hexadecimal digits. -/
def hexValue (ds : List Char) : Nat :=
  ds.foldl (fun acc c => 16 * acc + xdigitVal c) 0

/-- The `%<width>x` conversion (`width > 0`) storing into an `unsigned int`:
skip white space; fail on end of input; take an optional sign; take a leading
`0` and, if the width allows, an `x`/`X` after it; take hexadecimal digits
while the width lasts.  Nothing but a sign read is a matching failure.  The
value is that of `strtoul` in base 16 on the characters kept, a `-` negating
modulo `2^64`, narrowed to 32 bits.  Returns the value and the unread input. -/
def scan_x (width : Nat) (inp : List Char) : Except ScanStop (Nat × List Char) :=
  match inp.dropWhile isspace with
  | [] => .error .input_error
  | c :: cs =>
    let signed : Bool := c = '-' || c = '+'
    let neg : Bool := c = '-'
    let width1 := if signed then width - 1 else width
    let inp1 := if signed then cs else c :: cs
    let (zero, width2, inp2) : Bool × Nat × List Char :=
      match inp1 with
      | z :: t =>
        if width1 ≠ 0 ∧ z = '0' then
          match t with
          | x :: t2 =>
            if width1 - 1 ≠ 0 ∧ (x = 'x' ∨ x = 'X') then (true, width1 - 1 - 1, t2)
            else (true, width1 - 1, t)
          | [] => (true, width1 - 1, t)
        else (false, width1, inp1)
      | [] => (false, width1, inp1)
    let digs := (inp2.take width2).takeWhile isxdigit
    let rest := inp2.drop digs.length
    if !zero && digs.isEmpty then .error .conv_error
    else
      let v := hexValue digs
      let ul := if neg then (2 ^ 64 - v) % 2 ^ 64 else v % 2 ^ 64
      .ok (ul % 2 ^ 32, rest)

/-- C `EOF`. -/
def EOF : Int := -1

/-- Run the directives over the input: the return value of `sscanf` (the
number of conversions stored, or `EOF` when the input ends before the first
one) and the values stored, in order. -/
def scanDirectives : List Directive → List Char → List Nat → Int × List Nat
  | [], _, vals => (vals.length, vals)
  | .ordinary f :: ds, inp, vals =>
    match inp with
    | [] => (if vals.length = 0 then EOF else vals.length, vals)
    | c :: cs => if c = f then scanDirectives ds cs vals else (vals.length, vals)
  | .conv_x w :: ds, inp, vals =>
    match scan_x w inp with
    | .ok (v, rest) => scanDirectives ds rest (vals ++ [v])
    | .error .input_error => (if vals.length = 0 then EOF else vals.length, vals)
    | .error .conv_error => (vals.length, vals)

/-- The call `std::sscanf(in, format, ...)` for a format of the fragment above. -/
def sscanf (inp : List Char) (format : String) : Int × List Nat :=
  match parseFormat (format.length + 1) format.data with
  | some ds => scanDirectives ds inp []
  | none => (0, [])

/-- The function `PortConf::macStrtoByteArray(out, in)`: scan six `%02x`
fields separated by `:`; unless `sscanf` returns 6 throw
`in + " is an invalid MAC address"`, otherwise
`out.assign(&bytes[0], &bytes[6])`, each `unsigned int` narrowed to `uint8_t`.
The result is the new content of `out`. -/
def macStrtoByteArray (_out : List Nat) (inp : String) : Except String (List Nat) :=
  let r := sscanf (c_str inp) "%02x:%02x:%02x:%02x:%02x:%02x"
  if r.1 ≠ 6 then .error (inp ++ " is an invalid MAC address")
  else .ok (r.2.map (fun b => b % 256))

/-! ## The MAC pattern: a matcher for the regex fragment `mac_regex_` uses -/

/-- Regular expressions over the constructs of `mac_regex_`: the anchors `^`
and `$`, a bracket expression given by its ranges, concatenation, a
parenthesised group and the bounded repeat `{n}`. -/
inductive Regex where
  | bol
  | eol
  | bracket (ranges : List (Char × Char))
  | cat (r s : Regex)
  | group (r : Regex)
  | rep (r : Regex) (n : Nat)

/-- Apply `f` to every state of a list `n` times over, collecting all
outcomes. -/
def iterStates (f : Nat × List Char → List (Nat × List Char)) :
    Nat → List (Nat × List Char) → List (Nat × List Char)
  | 0, sts => sts
  | n + 1, sts => iterStates f n (sts.flatMap f)

/-- All ways `r` can match at a state (characters consumed so far, characters
left): the list of states after the match. -/
def Regex.run : Regex → Nat × List Char → List (Nat × List Char)
  | .bol, st => if st.1 = 0 then [st] else []
  | .eol, st => if st.2.isEmpty then [st] else []
  | .bracket ranges, st =>
    match st.2 with
    | [] => []
    | c :: cs =>
      if ranges.any (fun lohi => lohi.1.toNat ≤ c.toNat && c.toNat ≤ lohi.2.toNat)
      then [(st.1 + 1, cs)] else []
  | .cat r s, st => (r.run st).flatMap (fun st1 => s.run st1)
  | .group r, st => r.run st
  | .rep r n, st => iterStates (fun st1 => r.run st1) n [st]

/-- The call `std::regex_match(s, re)`: some match of `re` from the start of
`s` uses up all of `s`. -/
def regex_match (s : String) (re : Regex) : Bool :=
  (re.run (0, s.data)).any (fun st => st.2.isEmpty)

/-- The bracket expression `[0-9A-Fa-f]`. -/
def hexBracket : Regex := .bracket [('0', '9'), ('A', 'F'), ('a', 'f')]

/-- The static member `PortConf::mac_regex_`, the pattern
`^([0-9A-Fa-f]{2}[:-]){5}([0-9A-Fa-f]{2})$`. -/
def mac_regex_ : Regex :=
  .cat .bol
    (.cat (.rep (.group (.cat (.rep hexBracket 2) (.bracket [(':', ':'), ('-', '-')]))) 5)
      (.cat (.group (.rep hexBracket 2)) .eol))

/-! ## Construction, getters and setters -/

/-- The default constructor `PortConf::PortConf()`. -/
def PortConf_default : PortConf :=
  { if_name_ := "", if_index_ := 0, mac_address_ := "", mac_dst_address_ := "" }

/-- Conversion of an `unsigned int` to `int` (two's complement, 32 bits). -/
def toInt32 (n : Nat) : Int :=
  if n % 2 ^ 32 < 2 ^ 31 then (n % 2 ^ 32 : Nat) else ((n % 2 ^ 32 : Nat) : Int) - 2 ^ 32

/-- Linux `IFHWADDRLEN` from `<net/if.h>`. -/
def IFHWADDRLEN : Nat := 6

/-- The `printf` conversion `%0<width>x`: the lower-case hexadecimal digits of
`v`, padded with `0` on the left to `width` characters. -/
def print_0x (width v : Nat) : List Char :=
  let ds := Nat.toDigits 16 v
  List.replicate (width - ds.length) '0' ++ ds

/-- Print the directives with the arguments in order; every conversion of the
formats used here carries the `0` flag. -/
def printDirectives : List Directive → List Nat → List Char
  | [], _ => []
  | .ordinary c :: ds, args => c :: printDirectives ds args
  | .conv_x w :: ds, a :: args => print_0x w a ++ printDirectives ds args
  | .conv_x _ :: _, [] => []

/-- The call `std::sprintf(str, format, ...)` for a format of the fragment
above: the characters written to `str`. -/
def sprintf (format : String) (args : List Nat) : List Char :=
  match parseFormat (format.length + 1) format.data with
  | some ds => printDirectives ds args
  | none => []

/-- The function `PortConf::nbo_uint_to_mac_string(mac)`, `mac` a `uint64_t`:
`a[i] = (mac >> i * 8) & 0xFF` for `i = 0..5`, printed with
`"%02x:%02x:%02x:%02x:%02x:%02x"`. -/
def nbo_uint_to_mac_string (mac : Nat) : String :=
  let a : List Nat := (List.range 6).map (fun i => (mac >>> (i * 8)) &&& 0xFF)
  String.mk (sprintf "%02x:%02x:%02x:%02x:%02x:%02x" a)

/-- The copy `memcpy(&mac_, mac, sizeof(mac_))` on a little-endian host: the
64-bit value of the first eight bytes of the buffer, least significant first. -/
def load_u64 (buf : List Nat) : Nat :=
  (List.range 8).foldr (fun i acc => acc + (buf.getD i 0 % 256) * 2 ^ (8 * i)) 0

/-- The private function `PortConf::getMacAddress(iface)`: the socket is
opened, the hardware address queried, and on success the first `IFHWADDRLEN`
bytes of the answer are copied over the start of the uninitialised `mac[32]`,
whose first eight bytes are then formatted.  `errno` is the value the code
reads after the failed query.  `NLE_NOADDR` and `NLE_NODEV` are the constants
of `<netlink/errno.h>` the code compares `errno` with. -/
def getMacAddress_iface (NLE_NOADDR NLE_NODEV : Int) (os : OsAnswers) (_iface : String) :
    Except String String :=
  if os.socket < 0 then
    .error ("get_iface_mac error opening socket: " ++ os.strerror os.errno)
  else if os.ioctl ≥ 0 then
    let mac := (List.range 32).map
      (fun i => if i < IFHWADDRLEN then os.sa_data.getD i 0 else os.scratch.getD i 0)
    .ok (nbo_uint_to_mac_string (load_u64 mac))
  else if os.errno = NLE_NOADDR ∨ os.errno = NLE_NODEV then
    .ok ""
  else
    .error ("get_iface_mac error determining the MAC address: " ++ os.strerror os.errno)

/-- The constructor `PortConf::PortConf(name)`: the `unsigned int` result of
`if_nametoindex` is stored in an `int`; zero throws, otherwise the hardware
address is read. -/
def PortConf_name (NLE_NOADDR NLE_NODEV : Int) (os : OsAnswers) (name : String) :
    Except String PortConf :=
  let ifindex := toInt32 os.if_nametoindex
  if ifindex = 0 then
    .error ("Uname to retrieve ifindex for port " ++ name)
  else
    match getMacAddress_iface NLE_NOADDR NLE_NODEV os name with
    | .error e => .error e
    | .ok m => .ok { if_name_ := name, if_index_ := ifindex, mac_address_ := m,
                     mac_dst_address_ := "" }

/-- The getter `PortConf::getMacAddress()`. -/
def getMacAddress (self : PortConf) : String := self.mac_address_

/-- The getter `PortConf::getIfIndex()`. -/
def getIfIndex (self : PortConf) : Int := self.if_index_

/-- The getter `PortConf::getIfName()`. -/
def getIfName (self : PortConf) : String := self.if_name_

/-- The getter `PortConf::getDstMacAddress()`. -/
def getDstMacAddress (self : PortConf) : String := self.mac_dst_address_

/-- The setter `PortConf::setDstMacAddress(dstMacAddress)`: the outcome of the
call and the object after it.  The exception leaves before any member is
written. -/
def setDstMacAddress (self : PortConf) (dstMacAddress : String) :
    Except String Unit × PortConf :=
  if !regex_match dstMacAddress mac_regex_ then
    (.error (dstMacAddress ++ " is an invalid MAC address"), self)
  else
    (.ok (), { self with mac_dst_address_ := dstMacAddress })

/-- The six hardware-address bytes the query returned: the first six `char`s of
`sa_data` as unsigned bytes. -/
def hwaddr (os : OsAnswers) : List Nat :=
  [os.sa_data.getD 0 0 % 256, os.sa_data.getD 1 0 % 256, os.sa_data.getD 2 0 % 256,
    os.sa_data.getD 3 0 % 256, os.sa_data.getD 4 0 % 256, os.sa_data.getD 5 0 % 256]

/-- A call ended in an exception. -/
def throws {α : Type} (r : Except String α) : Bool :=
  match r with
  | .error _ => true
  | .ok _ => false

/-! ## Textual MAC forms used to state the properties -/

/-- A separator of the canonical textual form: colon or hyphen. -/
def isSep (c : Char) : Bool := c = ':' || c = '-'

/-- The canonical textual MAC form of the specification: six pairs of
hexadecimal digits, a colon or a hyphen between neighbouring pairs, nothing
before or after. -/
def isCanonicalMac (s : String) : Bool :=
  match s.data with
  | [a0, a1, p0, b0, b1, p1, c0, c1, p2, d0, d1, p3, e0, e1, p4, f0, f1] =>
    isxdigit a0 && isxdigit a1 && isSep p0 && isxdigit b0 && isxdigit b1 && isSep p1 &&
    isxdigit c0 && isxdigit c1 && isSep p2 && isxdigit d0 && isxdigit d1 && isSep p3 &&
    isxdigit e0 && isxdigit e1 && isSep p4 && isxdigit f0 && isxdigit f1
  | _ => false

/-- The hexadecimal digit character of `d < 16`, upper or lower case. -/
def hexDigitChar (upper : Bool) (d : Nat) : Char :=
  if d < 10 then Char.ofNat (48 + d)
  else if upper then Char.ofNat (55 + d) else Char.ofNat (87 + d)

/-- A two-digit hexadecimal form of the byte `b`, the case of each digit
chosen separately. -/
def hexPair (upHi upLo : Bool) (b : Nat) : List Char :=
  [hexDigitChar upHi (b / 16), hexDigitChar upLo (b % 16)]

/-- The two-digit forms of the bytes joined by colons; digit number `i` of the
string is upper case when `up i`. -/
def macText (up : Nat → Bool) (bs : List Nat) : String :=
  String.mk (List.intercalate [':']
    (bs.enum.map (fun ib => hexPair (up (2 * ib.1)) (up (2 * ib.1 + 1)) ib.2)))

/-- A lower-case hexadecimal digit. -/
def isLowerHex (c : Char) : Bool :=
  (48 ≤ c.toNat && c.toNat ≤ 57) || (97 ≤ c.toNat && c.toNat ≤ 102)

/-- Six pairs of lower-case hexadecimal digits separated by colons. -/
def isLowerColonMac (s : String) : Bool :=
  match s.data with
  | [a0, a1, p0, b0, b1, p1, c0, c1, p2, d0, d1, p3, e0, e1, p4, f0, f1] =>
    isLowerHex a0 && isLowerHex a1 && p0 = ':' && isLowerHex b0 && isLowerHex b1 && p1 = ':' &&
    isLowerHex c0 && isLowerHex c1 && p2 = ':' && isLowerHex d0 && isLowerHex d1 && p3 = ':' &&
    isLowerHex e0 && isLowerHex e1 && p4 = ':' && isLowerHex f0 && isLowerHex f1
  | _ => false

/-- Take one `hex hex separator` group off the front of a text, if it starts
with one. -/
def stripPairSep : List Char → Option (List Char)
  | a :: b :: p :: cs => if isxdigit a && isxdigit b && isSep p then some cs else none
  | _ => none

/-- Take `k` such groups off the front. -/
def stripPairSeps : Nat → List Char → Option (List Char)
  | 0, l => some l
  | k + 1, l => (stripPairSep l).bind (stripPairSeps k)

end PortConf

namespace upf_ebpf

/-! ## Record layout of `upf_bpf_structs.h` -/

/-- A scalar member of a record: its name and its size in bytes
(`uint8_t` 1, `uint16_t` 2, `uint32_t` 4, `uint64_t` 8). -/
structure Member where
  name : String
  size : Nat
  deriving DecidableEq, Repr

/-- A record declaration: its members in declaration order and whether it
carries `__attribute__((packed))`. -/
structure StructDecl where
  packed : Bool
  members : List Member
  deriving DecidableEq, Repr

/-- Alignment of a member: 1 in a packed record, its size otherwise. -/
def StructDecl.alignOf (d : StructDecl) (m : Member) : Nat :=
  if d.packed then 1 else m.size

/-- Round `n` up to a multiple of `a`. -/
def roundUp (n a : Nat) : Nat := (n + a - 1) / a * a

/-- Offsets of the members from a running offset: each member is placed at the
next multiple of its alignment. -/
def StructDecl.offsetsFrom (d : StructDecl) : Nat → List Member → List Nat
  | _, [] => []
  | cur, m :: ms =>
    let off := roundUp cur (d.alignOf m)
    off :: d.offsetsFrom (off + m.size) ms

/-- Offset of every member, in declaration order. -/
def StructDecl.offsets (d : StructDecl) : List Nat := d.offsetsFrom 0 d.members

/-- End of the last member. -/
def StructDecl.endFrom (d : StructDecl) : Nat → List Member → Nat
  | cur, [] => cur
  | cur, m :: ms => d.endFrom (roundUp cur (d.alignOf m) + m.size) ms

/-- The `sizeof` of a record: the end of the last member rounded up to the
largest member alignment. -/
def StructDecl.sizeof (d : StructDecl) : Nat :=
  roundUp (d.endFrom 0 d.members) ((d.members.map d.alignOf).foldl max 1)

/-- The `size` bytes of an unsigned value, least significant first (host order
of a little-endian machine). -/
def le_bytes (size v : Nat) : List Nat :=
  (List.range size).map (fun i => v / 256 ^ i % 256)

/-- Byte image of the members from a running offset: padding bytes (zero) up
to each member's offset, then the member's bytes. -/
def StructDecl.imageFrom (d : StructDecl) : Nat → List Member → List Nat → List Nat
  | _, [], _ => []
  | _, _ :: _, [] => []
  | cur, m :: ms, v :: vs =>
    let off := roundUp cur (d.alignOf m)
    List.replicate (off - cur) 0 ++ le_bytes m.size v ++ d.imageFrom (off + m.size) ms vs

/-- Byte image of a record holding the given member values. -/
def StructDecl.image (d : StructDecl) (vals : List Nat) : List Nat :=
  let body := d.imageFrom 0 d.members vals
  body ++ List.replicate (d.sizeof - body.length) 0

/-- Declaration of `struct pdr_key_s`. -/
def pdr_key_s_decl : StructDecl :=
  { packed := true,
    members := [⟨"src_iface", 1⟩, ⟨"tunnel_ip4_dst", 4⟩, ⟨"tunnel_teid", 4⟩,
      ⟨"ue_ip_src_addr", 4⟩, ⟨"inet_ip_dst_addr", 4⟩, ⟨"ue_src_port", 2⟩,
      ⟨"inet_src_port", 2⟩, ⟨"proto_id", 1⟩] }

/-- Declaration of `struct far_key_s`. -/
def far_key_s_decl : StructDecl :=
  { packed := true, members := [⟨"far_id", 4⟩, ⟨"fse_id", 4⟩] }

/-- Values of `struct pdr_key_s`. -/
structure pdr_key_s where
  src_iface : Nat
  tunnel_ip4_dst : Nat
  tunnel_teid : Nat
  ue_ip_src_addr : Nat
  inet_ip_dst_addr : Nat
  ue_src_port : Nat
  inet_src_port : Nat
  proto_id : Nat
  deriving DecidableEq, Repr

/-- Every member of a `pdr_key_s` is within its declared width. -/
def pdr_key_s.wf (k : pdr_key_s) : Prop :=
  k.src_iface < 2 ^ 8 ∧ k.tunnel_ip4_dst < 2 ^ 32 ∧ k.tunnel_teid < 2 ^ 32 ∧
  k.ue_ip_src_addr < 2 ^ 32 ∧ k.inet_ip_dst_addr < 2 ^ 32 ∧ k.ue_src_port < 2 ^ 16 ∧
  k.inet_src_port < 2 ^ 16 ∧ k.proto_id < 2 ^ 8

instance (k : pdr_key_s) : Decidable k.wf := by
  unfold pdr_key_s.wf
  infer_instance

/-- Byte image of a `pdr_key_s`. -/
def pdr_key_s.bytes (k : pdr_key_s) : List Nat :=
  pdr_key_s_decl.image [k.src_iface, k.tunnel_ip4_dst, k.tunnel_teid, k.ue_ip_src_addr,
    k.inet_ip_dst_addr, k.ue_src_port, k.inet_src_port, k.proto_id]

/-- Values of `struct far_key_s`. -/
structure far_key_s where
  far_id : Nat
  fse_id : Nat
  deriving DecidableEq, Repr

/-- Every member of a `far_key_s` is within its declared width. -/
def far_key_s.wf (k : far_key_s) : Prop := k.far_id < 2 ^ 32 ∧ k.fse_id < 2 ^ 32

instance (k : far_key_s) : Decidable k.wf := by
  unfold far_key_s.wf
  infer_instance

/-- Byte image of a `far_key_s`. -/
def far_key_s.bytes (k : far_key_s) : List Nat :=
  far_key_s_decl.image [k.far_id, k.fse_id]

/-- The bytes of an image from `off`, `len` of them. -/
def slice (img : List Nat) (off len : Nat) : List Nat := (img.drop off).take len

/-! ## FAR actions -/

/-- The enumeration `far_actions_e`. -/
inductive far_actions_e where
  | FAR_FORWARD_DOWNLINK_ACTION
  | FAR_FORWARD_UPLINK_ACTION
  | FAR_DROP_ACTION
  | FAR_BUFFER_ACTION
  | FAR_NOTIFY_CP_ACTION
  deriving DecidableEq, Repr

/-- Numeric code of an action, as declared. -/
def far_actions_e.code : far_actions_e → Nat
  | .FAR_FORWARD_DOWNLINK_ACTION => 0
  | .FAR_FORWARD_UPLINK_ACTION => 1
  | .FAR_DROP_ACTION => 2
  | .FAR_BUFFER_ACTION => 3
  | .FAR_NOTIFY_CP_ACTION => 4

/-- The five actions in declaration order. -/
def far_actions_e.all : List far_actions_e :=
  [.FAR_FORWARD_DOWNLINK_ACTION, .FAR_FORWARD_UPLINK_ACTION, .FAR_DROP_ACTION,
   .FAR_BUFFER_ACTION, .FAR_NOTIFY_CP_ACTION]

/-- A set of actions as five independent capabilities. -/
structure ActionSet where
  forward_downlink : Bool
  forward_uplink : Bool
  drop : Bool
  buffer : Bool
  notify_cp : Bool
  deriving DecidableEq, Repr

/-- Membership of an action in a set. -/
def ActionSet.member (s : ActionSet) : far_actions_e → Bool
  | .FAR_FORWARD_DOWNLINK_ACTION => s.forward_downlink
  | .FAR_FORWARD_UPLINK_ACTION => s.forward_uplink
  | .FAR_DROP_ACTION => s.drop
  | .FAR_BUFFER_ACTION => s.buffer
  | .FAR_NOTIFY_CP_ACTION => s.notify_cp

/-- Modelled from the spec: the code that fills `far_value_s.action` is not
among the sources.  The spec makes the field an action set whose members are
independently combinable; the model gives every action the bit of the field
whose position is the action's code in `far_actions_e`, reduced to the 64 bits
of the field. -/
def encodeActions (s : ActionSet) : Nat :=
  (far_actions_e.all.foldl
    (fun acc a => if s.member a then acc ||| (1 <<< a.code) else acc) 0) % 2 ^ 64

/-- Modelled from the spec: reading one action back from the field, the bit at
the position of the action's code. -/
def hasAction (action : Nat) (a : far_actions_e) : Bool :=
  (action >>> a.code) &&& 1 == 1

/-- All 32 action sets. -/
def ActionSet.all : List ActionSet :=
  [false, true].flatMap fun a => [false, true].flatMap fun b => [false, true].flatMap fun c =>
    [false, true].flatMap fun d => [false, true].map fun e => ⟨a, b, c, d, e⟩

/-- The field value obtained by or-ing the action codes themselves, for
comparison with `encodeActions`. -/
def orOfCodes (s : ActionSet) : Nat :=
  far_actions_e.all.foldl (fun acc a => if s.member a then acc ||| a.code else acc) 0

/-! ## Colour markers -/

/-- The enumeration `color_markers_e`. -/
inductive color_markers_e where
  | QER_GREEN_MARKER
  | QER_YELLOW_MARKER
  | QER_RED_MARKER
  deriving DecidableEq, Repr

/-- Numeric code of a colour marker, as declared. -/
def color_markers_e.code : color_markers_e → Nat
  | .QER_GREEN_MARKER => 0
  | .QER_YELLOW_MARKER => 1
  | .QER_RED_MARKER => 2

/-- The higher-severity of two colours in the order green, yellow, red of the
specification: red if either is red, otherwise yellow if either is yellow,
otherwise green. -/
def higherSeverity : color_markers_e → color_markers_e → color_markers_e
  | .QER_RED_MARKER, _ => .QER_RED_MARKER
  | _, .QER_RED_MARKER => .QER_RED_MARKER
  | .QER_YELLOW_MARKER, _ => .QER_YELLOW_MARKER
  | _, .QER_YELLOW_MARKER => .QER_YELLOW_MARKER
  | .QER_GREEN_MARKER, .QER_GREEN_MARKER => .QER_GREEN_MARKER

end upf_ebpf

/-! # Theorems -/

namespace PortConf

theorem char_eq_iff_toNat (c d : Char) : c = d ↔ c.toNat = d.toNat :=
  ⟨fun h => by rw [h], fun h => Char.ext (UInt32.toNat.inj h)⟩

theorem isSep_iff (c : Char) : isSep c = (c.toNat == 58 || c.toNat == 45) := by
  simp [isSep, char_eq_iff_toNat]
  rfl

theorem run_cat (r s : Regex) (st : Nat × List Char) :
    (Regex.cat r s).run st = (r.run st).flatMap (fun st1 => s.run st1) := by
  rw [Regex.run]

theorem run_group (r : Regex) (st : Nat × List Char) : (Regex.group r).run st = r.run st := by
  rw [Regex.run]

theorem run_rep (r : Regex) (n : Nat) (st : Nat × List Char) :
    (Regex.rep r n).run st = iterStates (fun st1 => r.run st1) n [st] := by
  rw [Regex.run]

theorem run_bol (st : Nat × List Char) : Regex.bol.run st = if st.1 = 0 then [st] else [] := by
  rw [Regex.run]

theorem run_eol (st : Nat × List Char) :
    Regex.eol.run st = if st.2.isEmpty then [st] else [] := by
  rw [Regex.run]

theorem hexBracket_run_cons (n : Nat) (c : Char) (cs : List Char) :
    hexBracket.run (n, c :: cs) = if isxdigit c then [(n + 1, cs)] else [] := by
  simp [hexBracket, Regex.run, isxdigit, Bool.or_assoc]

theorem hexBracket_run_nil (n : Nat) : hexBracket.run (n, []) = [] := by
  simp [hexBracket, Regex.run]

theorem sepBracket_run_cons (n : Nat) (c : Char) (cs : List Char) :
    (Regex.bracket [(':', ':'), ('-', '-')]).run (n, c :: cs)
      = if isSep c then [(n + 1, cs)] else [] := by
  have h : (58 ≤ c.toNat ∧ c.toNat ≤ 58 ∨ 45 ≤ c.toNat ∧ c.toNat ≤ 45) ↔
      (c.toNat = 58 ∨ c.toNat = 45) := by omega
  simp [Regex.run, isSep_iff, h]

theorem sepBracket_run_nil (n : Nat) :
    (Regex.bracket [(':', ':'), ('-', '-')]).run (n, []) = [] := by
  simp [Regex.run]

/-- The repeat `[0-9A-Fa-f]{2}` at a state. -/
theorem hexPair_run (n : Nat) (l : List Char) :
    (Regex.rep hexBracket 2).run (n, l)
      = match l with
        | a :: b :: cs => if isxdigit a && isxdigit b then [(n + 2, cs)] else []
        | _ => [] := by
  rcases l with _ | ⟨a, _ | ⟨b, cs⟩⟩
  · simp [run_rep, iterStates, hexBracket_run_nil]
  · by_cases ha : isxdigit a <;>
      simp [run_rep, iterStates, hexBracket_run_nil, hexBracket_run_cons, ha]
  · by_cases ha : isxdigit a <;> by_cases hb : isxdigit b <;>
      simp [run_rep, iterStates, hexBracket_run_nil, hexBracket_run_cons, ha, hb]

/-- The group `([0-9A-Fa-f]{2}[:-])` at a state. -/
theorem pairSep_run (n : Nat) (l : List Char) :
    (Regex.group (.cat (.rep hexBracket 2) (.bracket [(':', ':'), ('-', '-')]))).run (n, l)
      = match l with
        | a :: b :: p :: cs => if isxdigit a && isxdigit b && isSep p then [(n + 3, cs)] else []
        | _ => [] := by
  rw [run_group, run_cat, hexPair_run]
  rcases l with _ | ⟨a, _ | ⟨b, _ | ⟨p, cs⟩⟩⟩
  · simp
  · simp
  · by_cases ha : isxdigit a <;> by_cases hb : isxdigit b <;>
      simp [ha, hb, sepBracket_run_nil]
  · by_cases ha : isxdigit a <;> by_cases hb : isxdigit b <;> by_cases hp : isSep p <;>
      simp [ha, hb, sepBracket_run_cons, hp]


theorem iterStates_nil (f : Nat × List Char → List (Nat × List Char)) (n : Nat) :
    iterStates f n [] = [] := by
  induction n with
  | zero => rfl
  | succ n ih => simpa [iterStates] using ih

theorem iterStates_ite (f : Nat × List Char → List (Nat × List Char)) (n : Nat) (c : Prop)
    [Decidable c] (l : List (Nat × List Char)) :
    iterStates f n (if c then l else []) = if c then iterStates f n l else [] := by
  split <;> simp [iterStates_nil]

theorem iterStates_succ_single (f : Nat × List Char → List (Nat × List Char)) (n : Nat)
    (st : Nat × List Char) : iterStates f (n + 1) [st] = iterStates f n (f st) := by
  simp [iterStates]

theorem flatMap_ite_single {α β : Type} (c : Prop) [Decidable c] (x : α)
    (f : α → List β) : (if c then [x] else []).flatMap f = if c then f x else [] := by
  split <;> simp

theorem any_ite_nil {α : Type} (c : Prop) [Decidable c] (l : List α) (p : α → Bool) :
    (if c then l else []).any p = (decide c && l.any p) := by
  split <;> simp [*]


theorem pairSep_run_strip (n : Nat) (l : List Char) :
    (Regex.group (.cat (.rep hexBracket 2) (.bracket [(':', ':'), ('-', '-')]))).run (n, l)
      = match stripPairSep l with
        | some cs => [(n + 3, cs)]
        | none => [] := by
  rw [pairSep_run]
  rcases l with _ | ⟨a, _ | ⟨b, _ | ⟨p, cs⟩⟩⟩ <;> simp only [stripPairSep]
  split <;> simp_all

theorem iterStates_pairSep (k n : Nat) (l : List Char) :
    iterStates (fun st1 =>
        (Regex.group (.cat (.rep hexBracket 2) (.bracket [(':', ':'), ('-', '-')]))).run st1)
      k [(n, l)]
      = match stripPairSeps k l with
        | some cs => [(n + 3 * k, cs)]
        | none => [] := by
  induction k generalizing n l with
  | zero => simp [iterStates, stripPairSeps]
  | succ k ih =>
    rw [iterStates_succ_single]
    simp only [pairSep_run_strip, stripPairSeps]
    cases h : stripPairSep l with
    | none => simp [iterStates_nil]
    | some cs =>
      simp only [Option.some_bind, ih]
      cases stripPairSeps k cs with
      | none => rfl
      | some r => simp only [List.cons.injEq, Prod.mk.injEq, and_true]; omega

theorem regex_match_strip (l : List Char) :
    regex_match ⟨l⟩ mac_regex_
      = match stripPairSeps 5 l with
        | some [f0, f1] => isxdigit f0 && isxdigit f1
        | _ => false := by
  simp only [regex_match, mac_regex_, run_cat, run_bol, if_true, List.flatMap_cons,
    List.flatMap_nil, List.append_nil, run_rep]
  rw [iterStates_pairSep]
  cases stripPairSeps 5 l with
  | none => simp
  | some cs =>
    rcases cs with _ | ⟨f0, _ | ⟨f1, _ | ⟨g, r⟩⟩⟩
    · simp [run_group, hexPair_run]
    · simp [run_group, hexPair_run]
    · by_cases h : (isxdigit f0 && isxdigit f1) = true <;>
        simp [run_group, hexPair_run, run_eol, h]
    · by_cases h : (isxdigit f0 && isxdigit f1) = true <;>
        simp [run_group, hexPair_run, run_eol, h]

theorem stripPairSeps_cons3 (k : Nat) (a b p : Char) (cs : List Char) :
    stripPairSeps (k + 1) (a :: b :: p :: cs)
      = if (isxdigit a && isxdigit b && isSep p) = true then stripPairSeps k cs else none := by
  simp only [stripPairSeps, stripPairSep]
  split <;> simp

theorem stripPairSeps_nil (k : Nat) : stripPairSeps (k + 1) [] = none := by
  simp [stripPairSeps, stripPairSep]

theorem stripPairSeps_one (k : Nat) (a : Char) : stripPairSeps (k + 1) [a] = none := by
  simp [stripPairSeps, stripPairSep]

theorem stripPairSeps_two (k : Nat) (a b : Char) : stripPairSeps (k + 1) [a, b] = none := by
  simp [stripPairSeps, stripPairSep]

theorem stripPairSeps_zero (l : List Char) : stripPairSeps 0 l = some l := rfl

theorem isCanonicalMac_strip (l : List Char) :
    isCanonicalMac ⟨l⟩
      = match stripPairSeps 5 l with
        | some [f0, f1] => isxdigit f0 && isxdigit f1
        | _ => false := by
  rw [show (5 : Nat) = 0 + 1 + 1 + 1 + 1 + 1 from rfl]
  rcases l with _ | ⟨a0, _ | ⟨a1, _ | ⟨p0, _ | ⟨b0, _ | ⟨b1, _ | ⟨p1, _ | ⟨c0, _ | ⟨c1, _ | ⟨p2,
    _ | ⟨d0, _ | ⟨d1, _ | ⟨p3, _ | ⟨e0, _ | ⟨e1, _ | ⟨p4, _ | ⟨f0, _ | ⟨f1, _ | ⟨g, r⟩⟩⟩⟩⟩⟩⟩⟩⟩⟩⟩⟩⟩⟩⟩⟩⟩⟩
  all_goals simp only [isCanonicalMac, stripPairSeps_cons3, stripPairSeps_nil, stripPairSeps_one,
    stripPairSeps_two, stripPairSeps_zero]
  all_goals (split_ifs <;> simp_all)

/-- The matcher accepts exactly the canonical textual form. -/
theorem regex_match_mac_regex (s : String) : regex_match s mac_regex_ = isCanonicalMac s := by
  obtain ⟨l⟩ := s
  rw [regex_match_strip, isCanonicalMac_strip]


theorem isxdigit_not_isspace (c : Char) (h : isxdigit c = true) : isspace c = false := by
  simp only [isxdigit, isspace, Bool.or_eq_true, Bool.and_eq_true, decide_eq_true_eq,
    beq_iff_eq] at h
  simp only [isspace, Bool.or_eq_false_iff, Bool.and_eq_false_iff, beq_eq_false_iff_ne,
    decide_eq_false_iff_not]
  omega

theorem isxdigit_toNat (c : Char) (h : isxdigit c = true) :
    (48 ≤ c.toNat ∧ c.toNat ≤ 57) ∨ (65 ≤ c.toNat ∧ c.toNat ≤ 70) ∨
      (97 ≤ c.toNat ∧ c.toNat ≤ 102) := by
  simp only [isxdigit, Bool.or_eq_true, Bool.and_eq_true, decide_eq_true_eq] at h
  omega

theorem xdigitVal_lt (c : Char) : xdigitVal c < 16 := by
  unfold xdigitVal
  split_ifs <;> omega

theorem isxdigit_ne (c d : Char) (h : isxdigit c = true) (hd : isxdigit d = false) : c ≠ d := by
  rintro rfl
  rw [h] at hd
  exact Bool.noConfusion hd

theorem scan_x_two_digits (h l : Char) (rest : List Char) (hh : isxdigit h = true)
    (hl : isxdigit l = true) :
    scan_x 2 (h :: l :: rest) = .ok (16 * xdigitVal h + xdigitVal l, rest) := by
  have hs := isxdigit_not_isspace h hh
  have h1 : h ≠ '-' := isxdigit_ne h '-' hh (by decide)
  have h2 : h ≠ '+' := isxdigit_ne h '+' hh (by decide)
  have l1 : l ≠ 'x' := isxdigit_ne l 'x' hl (by decide)
  have l2 : l ≠ 'X' := isxdigit_ne l 'X' hl (by decide)
  have vh := xdigitVal_lt h
  have vl := xdigitVal_lt l
  by_cases hz : h = '0'
  · subst hz
    have v0 : xdigitVal '0' = 0 := by decide
    simp [scan_x, List.dropWhile, hs, l1, l2, hl, hexValue, List.takeWhile]
    omega
  · simp [scan_x, List.dropWhile, hs, h1, h2, hz, hl, hh, hexValue, List.takeWhile]
    omega

theorem parseFormat_mac :
    parseFormat ("%02x:%02x:%02x:%02x:%02x:%02x".length + 1)
        "%02x:%02x:%02x:%02x:%02x:%02x".data
      = some [.conv_x 2, .ordinary ':', .conv_x 2, .ordinary ':', .conv_x 2, .ordinary ':',
          .conv_x 2, .ordinary ':', .conv_x 2, .ordinary ':', .conv_x 2] := by
  decide

theorem isxdigit_toNat_ne_zero (c : Char) (h : isxdigit c = true) : (c.toNat != 0) = true := by
  have := isxdigit_toNat c h
  simp only [bne_iff_ne, ne_eq]
  omega

/-- Six pairs of hexadecimal digits joined by colons, whatever follows the
last pair, scan to the six values of the pairs. -/
theorem sscanf_hex_pairs (h0 l0 h1 l1 h2 l2 h3 l3 h4 l4 h5 l5 : Char) (rest : List Char)
    (x0 : isxdigit h0 = true) (y0 : isxdigit l0 = true) (x1 : isxdigit h1 = true)
    (y1 : isxdigit l1 = true) (x2 : isxdigit h2 = true) (y2 : isxdigit l2 = true)
    (x3 : isxdigit h3 = true) (y3 : isxdigit l3 = true) (x4 : isxdigit h4 = true)
    (y4 : isxdigit l4 = true) (x5 : isxdigit h5 = true) (y5 : isxdigit l5 = true) :
    sscanf (h0 :: l0 :: ':' :: h1 :: l1 :: ':' :: h2 :: l2 :: ':' :: h3 :: l3 :: ':' ::
        h4 :: l4 :: ':' :: h5 :: l5 :: rest) "%02x:%02x:%02x:%02x:%02x:%02x"
      = (6, [16 * xdigitVal h0 + xdigitVal l0, 16 * xdigitVal h1 + xdigitVal l1,
          16 * xdigitVal h2 + xdigitVal l2, 16 * xdigitVal h3 + xdigitVal l3,
          16 * xdigitVal h4 + xdigitVal l4, 16 * xdigitVal h5 + xdigitVal l5]) := by
  unfold sscanf
  rw [parseFormat_mac]
  simp only [scanDirectives, scan_x_two_digits, x0, y0, x1, y1, x2, y2, x3, y3, x4, y4, x5, y5,
    if_true, List.nil_append, List.cons_append, List.length_cons, List.length_nil]
  rfl

theorem macStrtoByteArray_hex_chars (out : List Nat)
    (h0 l0 h1 l1 h2 l2 h3 l3 h4 l4 h5 l5 : Char)
    (x0 : isxdigit h0 = true) (y0 : isxdigit l0 = true) (x1 : isxdigit h1 = true)
    (y1 : isxdigit l1 = true) (x2 : isxdigit h2 = true) (y2 : isxdigit l2 = true)
    (x3 : isxdigit h3 = true) (y3 : isxdigit l3 = true) (x4 : isxdigit h4 = true)
    (y4 : isxdigit l4 = true) (x5 : isxdigit h5 = true) (y5 : isxdigit l5 = true) :
    macStrtoByteArray out ⟨[h0, l0, ':', h1, l1, ':', h2, l2, ':', h3, l3, ':',
        h4, l4, ':', h5, l5]⟩
      = .ok [16 * xdigitVal h0 + xdigitVal l0, 16 * xdigitVal h1 + xdigitVal l1,
          16 * xdigitVal h2 + xdigitVal l2, 16 * xdigitVal h3 + xdigitVal l3,
          16 * xdigitVal h4 + xdigitVal l4, 16 * xdigitVal h5 + xdigitVal l5] := by
  have c : c_str ⟨[h0, l0, ':', h1, l1, ':', h2, l2, ':', h3, l3, ':', h4, l4, ':', h5, l5]⟩
      = [h0, l0, ':', h1, l1, ':', h2, l2, ':', h3, l3, ':', h4, l4, ':', h5, l5] := by
    simp [c_str, List.takeWhile, isxdigit_toNat_ne_zero, x0, y0, x1, y1, x2, y2, x3, y3, x4, y4,
      x5, y5]
  unfold macStrtoByteArray
  rw [c, sscanf_hex_pairs _ _ _ _ _ _ _ _ _ _ _ _ [] x0 y0 x1 y1 x2 y2 x3 y3 x4 y4 x5 y5]
  have v0 := xdigitVal_lt h0
  have w0 := xdigitVal_lt l0
  have v1 := xdigitVal_lt h1
  have w1 := xdigitVal_lt l1
  have v2 := xdigitVal_lt h2
  have w2 := xdigitVal_lt l2
  have v3 := xdigitVal_lt h3
  have w3 := xdigitVal_lt l3
  have v4 := xdigitVal_lt h4
  have w4 := xdigitVal_lt l4
  have v5 := xdigitVal_lt h5
  have w5 := xdigitVal_lt l5
  simp only [ne_eq, not_true_eq_false, if_false, List.map_cons, List.map_nil]
  congr 1
  simp only [List.cons.injEq, and_true]
  refine ⟨?_, ?_, ?_, ?_, ?_, ?_⟩ <;> omega

theorem hexDigitChar_isxdigit (u : Bool) (d : Nat) (h : d < 16) :
    isxdigit (hexDigitChar u d) = true := by
  interval_cases d <;> cases u <;> decide

theorem hexDigitChar_val (u : Bool) (d : Nat) (h : d < 16) :
    xdigitVal (hexDigitChar u d) = d := by
  interval_cases d <;> cases u <;> decide

theorem macText_six (up : Nat → Bool) (b0 b1 b2 b3 b4 b5 : Nat) :
    macText up [b0, b1, b2, b3, b4, b5]
      = ⟨[hexDigitChar (up 0) (b0 / 16), hexDigitChar (up 1) (b0 % 16), ':',
          hexDigitChar (up 2) (b1 / 16), hexDigitChar (up 3) (b1 % 16), ':',
          hexDigitChar (up 4) (b2 / 16), hexDigitChar (up 5) (b2 % 16), ':',
          hexDigitChar (up 6) (b3 / 16), hexDigitChar (up 7) (b3 % 16), ':',
          hexDigitChar (up 8) (b4 / 16), hexDigitChar (up 9) (b4 % 16), ':',
          hexDigitChar (up 10) (b5 / 16), hexDigitChar (up 11) (b5 % 16)]⟩ := by
  rfl

theorem macStrtoByteArray_macText (out : List Nat) (up : Nat → Bool)
    (b0 b1 b2 b3 b4 b5 : Nat) (h0 : b0 < 256) (h1 : b1 < 256) (h2 : b2 < 256) (h3 : b3 < 256)
    (h4 : b4 < 256) (h5 : b5 < 256) :
    macStrtoByteArray out (macText up [b0, b1, b2, b3, b4, b5]) = .ok [b0, b1, b2, b3, b4, b5] := by
  rw [macText_six, macStrtoByteArray_hex_chars]
  · simp only [hexDigitChar_val _ _ (Nat.mod_lt _ (by decide : 16 > 0)),
      hexDigitChar_val _ (b0 / 16) (by omega), hexDigitChar_val _ (b1 / 16) (by omega),
      hexDigitChar_val _ (b2 / 16) (by omega), hexDigitChar_val _ (b3 / 16) (by omega),
      hexDigitChar_val _ (b4 / 16) (by omega), hexDigitChar_val _ (b5 / 16) (by omega)]
    congr 1
    simp only [List.cons.injEq, and_true]
    refine ⟨?_, ?_, ?_, ?_, ?_, ?_⟩ <;> omega
  all_goals first
    | exact hexDigitChar_isxdigit _ _ (Nat.mod_lt _ (by decide))
    | exact hexDigitChar_isxdigit _ _ (by omega)


theorem and_255 (x : Nat) : x &&& 0xFF = x % 256 := Nat.and_pow_two_sub_one_eq_mod x 8

theorem print_0x_two (v : Nat) (h : v < 256) : print_0x 2 v = hexPair false false v := by
  interval_cases v <;> rfl

theorem nbo_bytes (m : Nat) :
    (List.range 6).map (fun i => (m >>> (i * 8)) &&& 0xFF)
      = [m % 256, m / 2 ^ 8 % 256, m / 2 ^ 16 % 256, m / 2 ^ 24 % 256, m / 2 ^ 32 % 256,
          m / 2 ^ 40 % 256] := by
  simp [List.range, List.range.loop, and_255, Nat.shiftRight_eq_div_pow]

theorem nbo_uint_to_mac_string_eq (m : Nat) :
    nbo_uint_to_mac_string m
      = macText (fun _ => false) [m % 256, m / 2 ^ 8 % 256, m / 2 ^ 16 % 256, m / 2 ^ 24 % 256,
          m / 2 ^ 32 % 256, m / 2 ^ 40 % 256] := by
  unfold nbo_uint_to_mac_string sprintf
  rw [parseFormat_mac]
  simp only [nbo_bytes]
  simp only [printDirectives]
  rw [print_0x_two _ (Nat.mod_lt _ (by decide)), print_0x_two _ (Nat.mod_lt _ (by decide)),
    print_0x_two _ (Nat.mod_lt _ (by decide)), print_0x_two _ (Nat.mod_lt _ (by decide)),
    print_0x_two _ (Nat.mod_lt _ (by decide)), print_0x_two _ (Nat.mod_lt _ (by decide))]
  rfl


theorem nbo_low48 (m1 m2 : Nat) (h : m1 % 2 ^ 48 = m2 % 2 ^ 48) :
    nbo_uint_to_mac_string m1 = nbo_uint_to_mac_string m2 := by
  rw [nbo_uint_to_mac_string_eq, nbo_uint_to_mac_string_eq]
  have e0 : m1 % 256 = m2 % 256 := by omega
  have e1 : m1 / 2 ^ 8 % 256 = m2 / 2 ^ 8 % 256 := by omega
  have e2 : m1 / 2 ^ 16 % 256 = m2 / 2 ^ 16 % 256 := by omega
  have e3 : m1 / 2 ^ 24 % 256 = m2 / 2 ^ 24 % 256 := by omega
  have e4 : m1 / 2 ^ 32 % 256 = m2 / 2 ^ 32 % 256 := by omega
  have e5 : m1 / 2 ^ 40 % 256 = m2 / 2 ^ 40 % 256 := by omega
  rw [e0, e1, e2, e3, e4, e5]

/-- The buffer `mac` after the `memcpy` of the hardware address. -/
theorem load_u64_mac (sa scratch : List Nat) :
    load_u64 ((List.range 32).map
        (fun i => if i < IFHWADDRLEN then sa.getD i 0 else scratch.getD i 0))
      = sa.getD 0 0 % 256 + sa.getD 1 0 % 256 * 2 ^ 8 + sa.getD 2 0 % 256 * 2 ^ 16 +
        sa.getD 3 0 % 256 * 2 ^ 24 + sa.getD 4 0 % 256 * 2 ^ 32 + sa.getD 5 0 % 256 * 2 ^ 40 +
        scratch.getD 6 0 % 256 * 2 ^ 48 + scratch.getD 7 0 % 256 * 2 ^ 56 := by
  simp [load_u64, List.range, List.range.loop, IFHWADDRLEN]
  omega

theorem getMacAddress_iface_read (a b : Int) (os : OsAnswers) (iface : String)
    (hs : 0 ≤ os.socket) (hi : 0 ≤ os.ioctl) :
    getMacAddress_iface a b os iface
      = .ok (macText (fun _ => false) [os.sa_data.getD 0 0 % 256, os.sa_data.getD 1 0 % 256,
          os.sa_data.getD 2 0 % 256, os.sa_data.getD 3 0 % 256, os.sa_data.getD 4 0 % 256,
          os.sa_data.getD 5 0 % 256]) := by
  unfold getMacAddress_iface
  rw [if_neg (by omega), if_pos (by omega)]
  simp only [load_u64_mac, nbo_uint_to_mac_string_eq]
  congr 2
  simp only [List.cons.injEq, and_true]
  refine ⟨?_, ?_, ?_, ?_, ?_, ?_⟩ <;> omega


theorem isLowerHex_hexDigitChar (d : Nat) (h : d < 16) :
    isLowerHex (hexDigitChar false d) = true := by
  interval_cases d <;> decide

theorem isLowerColonMac_macText (b0 b1 b2 b3 b4 b5 : Nat) :
    isLowerColonMac (macText (fun _ => false) [b0 % 256, b1 % 256, b2 % 256, b3 % 256,
      b4 % 256, b5 % 256]) = true := by
  rw [macText_six]
  simp only [isLowerColonMac, decide_True, Bool.and_true, Bool.and_eq_true]
  refine ⟨⟨⟨⟨⟨⟨⟨⟨⟨⟨⟨?_, ?_⟩, ?_⟩, ?_⟩, ?_⟩, ?_⟩, ?_⟩, ?_⟩, ?_⟩, ?_⟩, ?_⟩, ?_⟩ <;>
    exact isLowerHex_hexDigitChar _ (by omega)

theorem isCanonicalMac_macText (up : Nat → Bool) (b0 b1 b2 b3 b4 b5 : Nat) (h0 : b0 < 256)
    (h1 : b1 < 256) (h2 : b2 < 256) (h3 : b3 < 256) (h4 : b4 < 256) (h5 : b5 < 256) :
    isCanonicalMac (macText up [b0, b1, b2, b3, b4, b5]) = true := by
  rw [macText_six]
  have sep : isSep ':' = true := by decide
  simp only [isCanonicalMac, sep, Bool.and_true, Bool.and_eq_true]
  refine ⟨⟨⟨⟨⟨⟨⟨⟨⟨⟨⟨?_, ?_⟩, ?_⟩, ?_⟩, ?_⟩, ?_⟩, ?_⟩, ?_⟩, ?_⟩, ?_⟩, ?_⟩, ?_⟩ <;>
    exact hexDigitChar_isxdigit _ _ (by omega)

theorem length_macText (up : Nat → Bool) (b0 b1 b2 b3 b4 b5 : Nat) :
    (macText up [b0, b1, b2, b3, b4, b5]).length = 17 := by
  rw [macText_six]
  rfl

/-- C1: for every six byte values, `macStrtoByteArray` applied to their
two-digit hexadecimal forms (each digit in upper or lower case) joined by
colons succeeds and the output becomes exactly the six bytes, whatever the
output held before; in particular `"aa:bb:cc:dd:ee:ff"` gives
`[0xaa, 0xbb, 0xcc, 0xdd, 0xee, 0xff]`. -/
theorem macStrtoByteArray_six_hex_pairs (out : List Nat) (up : Nat → Bool)
    (b0 b1 b2 b3 b4 b5 : Nat) (h0 : b0 < 256) (h1 : b1 < 256) (h2 : b2 < 256) (h3 : b3 < 256)
    (h4 : b4 < 256) (h5 : b5 < 256) :
    macStrtoByteArray out (macText up [b0, b1, b2, b3, b4, b5])
        = .ok [b0, b1, b2, b3, b4, b5] ∧
      macStrtoByteArray out "aa:bb:cc:dd:ee:ff" = .ok [0xaa, 0xbb, 0xcc, 0xdd, 0xee, 0xff] :=
  ⟨macStrtoByteArray_macText out up b0 b1 b2 b3 b4 b5 h0 h1 h2 h3 h4 h5, rfl⟩

/-- Witness of C1 at the bytes de ad be ef 00 0f written in mixed case, the
output holding `[7]` before. -/
theorem macStrtoByteArray_six_hex_pairs_witness :
    macText (fun i => decide (i % 2 = 0)) [0xde, 0xad, 0xbe, 0xef, 0x00, 0x0f]
        = "De:Ad:Be:Ef:00:0f" ∧
      macStrtoByteArray [7] (macText (fun i => decide (i % 2 = 0))
          [0xde, 0xad, 0xbe, 0xef, 0x00, 0x0f])
        = .ok [0xde, 0xad, 0xbe, 0xef, 0x00, 0x0f] :=
  ⟨by decide,
    (macStrtoByteArray_six_hex_pairs [7] (fun i => decide (i % 2 = 0)) 0xde 0xad 0xbe 0xef 0x00
      0x0f (by decide) (by decide) (by decide) (by decide) (by decide) (by decide)).1⟩

/-- C2 (the code departs from the claim): `"aa-bb-cc-dd-ee-ff"` matches
`mac_regex_` and is accepted by `setDstMacAddress`, yet `macStrtoByteArray`
throws on it; `"aa:bb:cc:dd:ee:ffzz"` and `"a:b:c:d:e:f"` do not match
`mac_regex_`, yet `macStrtoByteArray` succeeds on them; `"aa:bb:cc"` fails. -/
theorem macStrtoByteArray_disagrees_with_mac_regex :
    regex_match "aa-bb-cc-dd-ee-ff" mac_regex_ = true ∧
    (setDstMacAddress PortConf_default "aa-bb-cc-dd-ee-ff").1 = .ok () ∧
    macStrtoByteArray [] "aa-bb-cc-dd-ee-ff"
      = .error "aa-bb-cc-dd-ee-ff is an invalid MAC address" ∧
    regex_match "aa:bb:cc:dd:ee:ffzz" mac_regex_ = false ∧
    macStrtoByteArray [] "aa:bb:cc:dd:ee:ffzz" = .ok [0xaa, 0xbb, 0xcc, 0xdd, 0xee, 0xff] ∧
    regex_match "a:b:c:d:e:f" mac_regex_ = false ∧
    macStrtoByteArray [] "a:b:c:d:e:f" = .ok [0xa, 0xb, 0xc, 0xd, 0xe, 0xf] ∧
    regex_match "aa:bb:cc" mac_regex_ = false ∧
    macStrtoByteArray [] "aa:bb:cc" = .error "aa:bb:cc is an invalid MAC address" := by
  refine ⟨by decide, by rfl, by rfl, by decide, by rfl, by decide, by rfl, by decide, by rfl⟩

/-- C3: `setDstMacAddress(s)` fails exactly when `s` is not of the canonical
textual MAC form; when it succeeds `getDstMacAddress()` returns `s` and the
interface name, interface index and own MAC address are untouched; when it
fails the object keeps all its previous values. -/
theorem setDstMacAddress_canonical (p : PortConf) (s : String) :
    (throws (setDstMacAddress p s).1 = true ↔ isCanonicalMac s = false) ∧
    (isCanonicalMac s = true →
      (setDstMacAddress p s).1 = .ok () ∧
      getDstMacAddress (setDstMacAddress p s).2 = s ∧
      getIfName (setDstMacAddress p s).2 = getIfName p ∧
      getIfIndex (setDstMacAddress p s).2 = getIfIndex p ∧
      getMacAddress (setDstMacAddress p s).2 = getMacAddress p) ∧
    (isCanonicalMac s = false →
      (setDstMacAddress p s).1 = .error (s ++ " is an invalid MAC address") ∧
      (setDstMacAddress p s).2 = p) := by
  unfold setDstMacAddress
  rw [regex_match_mac_regex]
  cases h : isCanonicalMac s <;>
    simp [throws, getDstMacAddress, getIfName, getIfIndex, getMacAddress]

/-- Witness of C3: a mixed-separator address is accepted and stored, a short
one is rejected and the object is unchanged. -/
theorem setDstMacAddress_canonical_witness :
    isCanonicalMac "0A-1b:2C-3d:4E-5f" = true ∧
    getDstMacAddress (setDstMacAddress ⟨"eth0", 3, "02:00:00:00:00:01", ""⟩
      "0A-1b:2C-3d:4E-5f").2 = "0A-1b:2C-3d:4E-5f" ∧
    isCanonicalMac "aa:bb:cc" = false ∧
    (setDstMacAddress ⟨"eth0", 3, "02:00:00:00:00:01", ""⟩ "aa:bb:cc").2
      = ⟨"eth0", 3, "02:00:00:00:00:01", ""⟩ :=
  ⟨by decide,
    ((setDstMacAddress_canonical ⟨"eth0", 3, "02:00:00:00:00:01", ""⟩
      "0A-1b:2C-3d:4E-5f").2.1 (by decide)).2.1,
    by decide,
    ((setDstMacAddress_canonical ⟨"eth0", 3, "02:00:00:00:00:01", ""⟩
      "aa:bb:cc").2.2 (by decide)).2⟩


theorem toInt32_of_lt (n : Nat) (h : n < 2 ^ 31) : toInt32 n = (n : Int) := by
  unfold toInt32
  have e : n % 2 ^ 32 = n := Nat.mod_eq_of_lt (by omega)
  rw [e, if_pos h]

theorem toInt32_eq_zero (n : Nat) (h : n < 2 ^ 32) : toInt32 n = 0 ↔ n = 0 := by
  unfold toInt32
  have e : n % 2 ^ 32 = n := Nat.mod_eq_of_lt h
  rw [e]
  split <;> omega

/-- C4: with the answers of the operating system as inputs, `PortConf(name)`
fails exactly when the index returned for the name is 0, the socket does not
open, or the hardware-address query fails with an `errno` other than the two
"no longer present" codes; when the query fails with one of those two codes
the object is built, its MAC is empty and its index is the resolved one; when
everything succeeds the index is the resolved one, the name is `name` and the
MAC is the text of the six bytes read.  The resolved index is read back as the
`int` the code stores it in, the index itself whenever it is below `2^31`. -/
theorem PortConf_name_resolution (NLE_NOADDR NLE_NODEV : Int) (os : OsAnswers) (name : String)
    (hidx : os.if_nametoindex < 2 ^ 32) :
    (throws (PortConf_name NLE_NOADDR NLE_NODEV os name) = true ↔
      (os.if_nametoindex = 0 ∨ os.socket < 0 ∨
        (os.ioctl < 0 ∧ os.errno ≠ NLE_NOADDR ∧ os.errno ≠ NLE_NODEV))) ∧
    (os.if_nametoindex ≠ 0 → 0 ≤ os.socket → os.ioctl < 0 →
      (os.errno = NLE_NOADDR ∨ os.errno = NLE_NODEV) →
      PortConf_name NLE_NOADDR NLE_NODEV os name
          = .ok ⟨name, toInt32 os.if_nametoindex, "", ""⟩ ∧
        getMacAddress ⟨name, toInt32 os.if_nametoindex, "", ""⟩ = "" ∧
        getIfIndex ⟨name, toInt32 os.if_nametoindex, "", ""⟩ = toInt32 os.if_nametoindex ∧
        getIfName ⟨name, toInt32 os.if_nametoindex, "", ""⟩ = name) ∧
    (os.if_nametoindex ≠ 0 → 0 ≤ os.socket → 0 ≤ os.ioctl →
      PortConf_name NLE_NOADDR NLE_NODEV os name
          = .ok ⟨name, toInt32 os.if_nametoindex, macText (fun _ => false) (hwaddr os), ""⟩ ∧
        getIfIndex ⟨name, toInt32 os.if_nametoindex, macText (fun _ => false) (hwaddr os), ""⟩
          = toInt32 os.if_nametoindex ∧
        getIfName ⟨name, toInt32 os.if_nametoindex, macText (fun _ => false) (hwaddr os), ""⟩
          = name ∧
        getMacAddress ⟨name, toInt32 os.if_nametoindex, macText (fun _ => false) (hwaddr os), ""⟩
          = macText (fun _ => false) (hwaddr os)) ∧
    (os.if_nametoindex < 2 ^ 31 → toInt32 os.if_nametoindex = (os.if_nametoindex : Int)) := by
  have hi : toInt32 os.if_nametoindex = 0 ↔ os.if_nametoindex = 0 :=
    toInt32_eq_zero _ hidx
  refine ⟨?_, ?_, ?_, toInt32_of_lt _⟩
  · unfold PortConf_name
    simp only [hi]
    by_cases h0 : os.if_nametoindex = 0
    · simp [h0, throws]
    · by_cases hs : os.socket < 0
      · simp [h0, hs, throws, getMacAddress_iface]
      · by_cases hq : 0 ≤ os.ioctl
        · rw [getMacAddress_iface_read _ _ _ _ (by omega) hq]
          simp only [h0, if_false, throws, false_or, Bool.false_eq_true, false_iff]
          omega
        · by_cases he : os.errno = NLE_NOADDR ∨ os.errno = NLE_NODEV
          · have hq2 : ¬ os.ioctl ≥ 0 := hq
            simp only [h0, if_false, getMacAddress_iface, hs, hq2, he, if_true, throws,
              false_or, Bool.false_eq_true, false_iff]
            omega
          · have hq2 : ¬ os.ioctl ≥ 0 := hq
            simp only [h0, if_false, getMacAddress_iface, hs, hq2, he, throws,
              false_or, true_iff]
            omega
  · intro h0 hs hq he
    have hs2 : ¬ os.socket < 0 := by omega
    have hq2 : ¬ os.ioctl ≥ 0 := by omega
    refine ⟨?_, rfl, rfl, rfl⟩
    simp [PortConf_name, hi, h0, getMacAddress_iface, hs2, hq2, he]
  · intro h0 hs hq
    refine ⟨?_, rfl, rfl, rfl⟩
    unfold PortConf_name
    rw [getMacAddress_iface_read _ _ _ _ hs hq]
    simp only [hi, h0, if_false]
    rfl

/-- Witness of C4: index 4, socket 3, a successful query reading
`02:42:ac:11:00:02`, the scratch buffer holding other bytes. -/
theorem PortConf_name_resolution_witness :
    PortConf_name 19 31
        ⟨4, 3, 0, 0, [0x02, 0x42, 0xac, 0x11, 0x00, 0x02, 9, 9], [5, 5, 5, 5, 5, 5, 0xee, 0xff],
          fun _ => ""⟩ "eth0"
      = .ok ⟨"eth0", 4, "02:42:ac:11:00:02", ""⟩ :=
  ((PortConf_name_resolution 19 31
    ⟨4, 3, 0, 0, [0x02, 0x42, 0xac, 0x11, 0x00, 0x02, 9, 9], [5, 5, 5, 5, 5, 5, 0xee, 0xff],
      fun _ => ""⟩ "eth0" (by decide)).2.2.1 (by decide) (by decide) (by decide)).1

/-- C8: for every value `m`, `macStrtoByteArray` applied to
`nbo_uint_to_mac_string(m)` succeeds and yields the six bytes
`(m >> 8*i) & 0xFF`, `i = 0..5`, least significant first. -/
theorem macStrtoByteArray_nbo_uint_to_mac_string (out : List Nat) (m : Nat) :
    macStrtoByteArray out (nbo_uint_to_mac_string m)
      = .ok [(m >>> (8 * 0)) &&& 0xFF, (m >>> (8 * 1)) &&& 0xFF, (m >>> (8 * 2)) &&& 0xFF,
          (m >>> (8 * 3)) &&& 0xFF, (m >>> (8 * 4)) &&& 0xFF, (m >>> (8 * 5)) &&& 0xFF] := by
  rw [nbo_uint_to_mac_string_eq, macStrtoByteArray_macText out _ _ _ _ _ _ _
    (Nat.mod_lt _ (by decide)) (Nat.mod_lt _ (by decide)) (Nat.mod_lt _ (by decide))
    (Nat.mod_lt _ (by decide)) (Nat.mod_lt _ (by decide)) (Nat.mod_lt _ (by decide))]
  simp [and_255, Nat.shiftRight_eq_div_pow]

/-- C9: for every value `m`, `nbo_uint_to_mac_string(m)` is 17 characters
long, consists of six pairs of lower-case hexadecimal digits separated by
colons, matches `mac_regex_`, and is accepted and stored by
`setDstMacAddress`. -/
theorem nbo_uint_to_mac_string_accepted (m : Nat) (p : PortConf) :
    (nbo_uint_to_mac_string m).length = 17 ∧
    isLowerColonMac (nbo_uint_to_mac_string m) = true ∧
    regex_match (nbo_uint_to_mac_string m) mac_regex_ = true ∧
    setDstMacAddress p (nbo_uint_to_mac_string m)
      = (.ok (), { p with mac_dst_address_ := nbo_uint_to_mac_string m }) := by
  have hc : isCanonicalMac (nbo_uint_to_mac_string m) = true := by
    rw [nbo_uint_to_mac_string_eq]
    exact isCanonicalMac_macText _ _ _ _ _ _ _ (Nat.mod_lt _ (by decide))
      (Nat.mod_lt _ (by decide)) (Nat.mod_lt _ (by decide)) (Nat.mod_lt _ (by decide))
      (Nat.mod_lt _ (by decide)) (Nat.mod_lt _ (by decide))
  refine ⟨?_, ?_, ?_, ?_⟩
  · rw [nbo_uint_to_mac_string_eq, length_macText]
  · rw [nbo_uint_to_mac_string_eq]
    have h := isLowerColonMac_macText m (m / 2 ^ 8) (m / 2 ^ 16) (m / 2 ^ 24) (m / 2 ^ 32)
      (m / 2 ^ 40)
    exact h
  · rw [regex_match_mac_regex, hc]
  · unfold setDstMacAddress
    rw [regex_match_mac_regex, hc]
    rfl

/-- C10: `nbo_uint_to_mac_string` depends only on the low 48 bits of its
argument, so the string `getMacAddress(name)` returns after a successful query
is determined by the six address bytes read alone: two runs that read the same
six bytes return the same string, whatever the scratch buffer held. -/
theorem nbo_uint_to_mac_string_low_48_bits (m1 m2 : Nat) (h : m1 % 2 ^ 48 = m2 % 2 ^ 48)
    (NLE_NOADDR NLE_NODEV : Int) (os1 os2 : OsAnswers) (iface1 iface2 : String)
    (hs1 : 0 ≤ os1.socket) (hq1 : 0 ≤ os1.ioctl) (hs2 : 0 ≤ os2.socket) (hq2 : 0 ≤ os2.ioctl)
    (hb : ∀ i, i < 6 → os1.sa_data.getD i 0 % 256 = os2.sa_data.getD i 0 % 256) :
    nbo_uint_to_mac_string m1 = nbo_uint_to_mac_string m2 ∧
    getMacAddress_iface NLE_NOADDR NLE_NODEV os1 iface1
      = getMacAddress_iface NLE_NOADDR NLE_NODEV os2 iface2 := by
  refine ⟨nbo_low48 m1 m2 h, ?_⟩
  rw [getMacAddress_iface_read _ _ _ _ hs1 hq1, getMacAddress_iface_read _ _ _ _ hs2 hq2,
    hb 0 (by decide), hb 1 (by decide), hb 2 (by decide), hb 3 (by decide), hb 4 (by decide),
    hb 5 (by decide)]

/-- Witness of C10: two values that differ in their two high bytes only, and
two reads of the same six bytes with different scratch buffers. -/
theorem nbo_uint_to_mac_string_low_48_bits_witness :
    nbo_uint_to_mac_string 0xffff0200ac114202 = nbo_uint_to_mac_string 0x12340200ac114202 ∧
    getMacAddress_iface 19 31
        ⟨4, 3, 0, 0, [2, 0x42, 0x11, 0xac, 0, 2], [0, 0, 0, 0, 0, 0, 0xff, 0xff], fun _ => ""⟩
        "eth0"
      = getMacAddress_iface 19 31
        ⟨4, 3, 0, 0, [2, 0x42, 0x11, 0xac, 0, 2], [1, 1, 1, 1, 1, 1, 0x12, 0x34], fun _ => ""⟩
        "eth0" :=
  nbo_uint_to_mac_string_low_48_bits 0xffff0200ac114202 0x12340200ac114202 (by decide) 19 31
    ⟨4, 3, 0, 0, [2, 0x42, 0x11, 0xac, 0, 2], [0, 0, 0, 0, 0, 0, 0xff, 0xff], fun _ => ""⟩
    ⟨4, 3, 0, 0, [2, 0x42, 0x11, 0xac, 0, 2], [1, 1, 1, 1, 1, 1, 0x12, 0x34], fun _ => ""⟩
    "eth0" "eth0" (by decide) (by decide) (by decide) (by decide) (fun _ _ => rfl)

end PortConf

namespace upf_ebpf

theorem le_bytes_one (v : Nat) : le_bytes 1 v = [v % 256] := by
  simp [le_bytes, List.range, List.range.loop]

theorem le_bytes_two (v : Nat) : le_bytes 2 v = [v % 256, v / 256 % 256] := by
  simp [le_bytes, List.range, List.range.loop]

theorem le_bytes_four (v : Nat) :
    le_bytes 4 v = [v % 256, v / 256 % 256, v / 65536 % 256, v / 16777216 % 256] := by
  simp [le_bytes, List.range, List.range.loop]

theorem pdr_key_s_bytes_eq (k : pdr_key_s) :
    k.bytes = le_bytes 1 k.src_iface ++ le_bytes 4 k.tunnel_ip4_dst ++ le_bytes 4 k.tunnel_teid ++
      le_bytes 4 k.ue_ip_src_addr ++ le_bytes 4 k.inet_ip_dst_addr ++ le_bytes 2 k.ue_src_port ++
      le_bytes 2 k.inet_src_port ++ le_bytes 1 k.proto_id := by
  simp [pdr_key_s.bytes, StructDecl.image, StructDecl.imageFrom, pdr_key_s_decl,
    StructDecl.alignOf, roundUp, StructDecl.sizeof, StructDecl.endFrom, le_bytes_one,
    le_bytes_two, le_bytes_four]

theorem far_key_s_bytes_eq (k : far_key_s) :
    k.bytes = le_bytes 4 k.far_id ++ le_bytes 4 k.fse_id := by
  simp [far_key_s.bytes, StructDecl.image, StructDecl.imageFrom, far_key_s_decl,
    StructDecl.alignOf, roundUp, StructDecl.sizeof, StructDecl.endFrom,
    le_bytes_four]

theorem u8_ext (v w : Nat) (hv : v < 2 ^ 8) (hw : w < 2 ^ 8) (h0 : v % 256 = w % 256) : v = w := by
  omega

theorem u16_ext (v w : Nat) (hv : v < 2 ^ 16) (hw : w < 2 ^ 16) (h0 : v % 256 = w % 256)
    (h1 : v / 256 % 256 = w / 256 % 256) : v = w := by
  omega

theorem u32_ext (v w : Nat) (hv : v < 2 ^ 32) (hw : w < 2 ^ 32) (h0 : v % 256 = w % 256)
    (h1 : v / 256 % 256 = w / 256 % 256) (h2 : v / 65536 % 256 = w / 65536 % 256)
    (h3 : v / 16777216 % 256 = w / 16777216 % 256) : v = w := by
  omega

theorem pdr_key_s_bytes_inj (k k2 : pdr_key_s) (h : k.wf) (h2 : k2.wf)
    (e : k.bytes = k2.bytes) : k = k2 := by
  rw [pdr_key_s_bytes_eq, pdr_key_s_bytes_eq] at e
  simp only [le_bytes_one, le_bytes_two, le_bytes_four, List.cons_append, List.nil_append,
    List.cons.injEq, and_true] at e
  obtain ⟨a, b, c, d, e5, f, g, hh⟩ := k
  obtain ⟨a2, b2, c2, d2, e2, f2, g2, hh2⟩ := k2
  simp only [pdr_key_s.wf] at h h2
  simp only [pdr_key_s.mk.injEq]
  obtain ⟨w1, w2, w3, w4, w5, w6, w7, w8⟩ := h
  obtain ⟨v1, v2, v3, v4, v5, v6, v7, v8⟩ := h2
  obtain ⟨e1, e2, e3, e4, e5, e6, e7, e8, e9, e10, e11, e12, e13, e14, e15, e16, e17, e18, e19,
    e20, e21, e22⟩ := e
  exact ⟨u8_ext _ _ w1 v1 e1, u32_ext _ _ w2 v2 e2 e3 e4 e5, u32_ext _ _ w3 v3 e6 e7 e8 e9,
    u32_ext _ _ w4 v4 e10 e11 e12 e13, u32_ext _ _ w5 v5 e14 e15 e16 e17,
    u16_ext _ _ w6 v6 e18 e19, u16_ext _ _ w7 v7 e20 e21, u8_ext _ _ w8 v8 e22⟩

theorem far_key_s_bytes_inj (k k2 : far_key_s) (h : k.wf) (h2 : k2.wf)
    (e : k.bytes = k2.bytes) : k = k2 := by
  rw [far_key_s_bytes_eq, far_key_s_bytes_eq] at e
  simp only [le_bytes_four, List.cons_append, List.nil_append,
    List.cons.injEq, and_true] at e
  obtain ⟨a, b⟩ := k
  obtain ⟨a2, b2⟩ := k2
  simp only [far_key_s.wf] at h h2
  simp only [far_key_s.mk.injEq]
  obtain ⟨e1, e2, e3, e4, e5, e6, e7, e8⟩ := e
  exact ⟨u32_ext _ _ h.1 h2.1 e1 e2 e3 e4, u32_ext _ _ h.2 h2.2 e5 e6 e7 e8⟩

/-- C5: `pdr_key_s` and `far_key_s` are packed records in the declared member
order: the image of a `pdr_key_s` is 22 bytes with `src_iface` at offset 0 (1
byte), `tunnel_ip4_dst` at 1 (4), `tunnel_teid` at 5 (4), `ue_ip_src_addr` at 9
(4), `inet_ip_dst_addr` at 13 (4), `ue_src_port` at 17 (2), `inet_src_port` at
19 (2) and `proto_id` at 21 (1); the image of a `far_key_s` is 8 bytes with
`far_id` at 0 (4) and `fse_id` at 4 (4); two keys have the same image exactly
when all their members are equal. -/
theorem key_records_layout (k k2 : pdr_key_s) (f f2 : far_key_s) (hk : k.wf) (hk2 : k2.wf)
    (hf : f.wf) (hf2 : f2.wf) :
    (pdr_key_s_decl.packed = true ∧
      pdr_key_s_decl.members.map Member.name =
        ["src_iface", "tunnel_ip4_dst", "tunnel_teid", "ue_ip_src_addr", "inet_ip_dst_addr",
          "ue_src_port", "inet_src_port", "proto_id"] ∧
      pdr_key_s_decl.offsets = [0, 1, 5, 9, 13, 17, 19, 21] ∧
      pdr_key_s_decl.members.map Member.size = [1, 4, 4, 4, 4, 2, 2, 1] ∧
      pdr_key_s_decl.sizeof = 22) ∧
    (far_key_s_decl.packed = true ∧
      far_key_s_decl.members.map Member.name = ["far_id", "fse_id"] ∧
      far_key_s_decl.offsets = [0, 4] ∧
      far_key_s_decl.members.map Member.size = [4, 4] ∧
      far_key_s_decl.sizeof = 8) ∧
    (k.bytes.length = 22 ∧
      slice k.bytes 0 1 = le_bytes 1 k.src_iface ∧
      slice k.bytes 1 4 = le_bytes 4 k.tunnel_ip4_dst ∧
      slice k.bytes 5 4 = le_bytes 4 k.tunnel_teid ∧
      slice k.bytes 9 4 = le_bytes 4 k.ue_ip_src_addr ∧
      slice k.bytes 13 4 = le_bytes 4 k.inet_ip_dst_addr ∧
      slice k.bytes 17 2 = le_bytes 2 k.ue_src_port ∧
      slice k.bytes 19 2 = le_bytes 2 k.inet_src_port ∧
      slice k.bytes 21 1 = le_bytes 1 k.proto_id) ∧
    (f.bytes.length = 8 ∧
      slice f.bytes 0 4 = le_bytes 4 f.far_id ∧
      slice f.bytes 4 4 = le_bytes 4 f.fse_id) ∧
    (k.bytes = k2.bytes ↔ k = k2) ∧
    (f.bytes = f2.bytes ↔ f = f2) := by
  refine ⟨⟨rfl, by decide, by decide, by decide, by decide⟩,
    ⟨rfl, by decide, by decide, by decide, by decide⟩, ?_, ?_,
    ⟨pdr_key_s_bytes_inj k k2 hk hk2, fun e => by rw [e]⟩,
    ⟨far_key_s_bytes_inj f f2 hf hf2, fun e => by rw [e]⟩⟩
  · rw [pdr_key_s_bytes_eq]
    simp [slice, le_bytes_one, le_bytes_two, le_bytes_four]
  · rw [far_key_s_bytes_eq]
    simp [slice, le_bytes_four]

/-- Witness of C5: two PDR keys that differ in the peer port only and two FAR
keys that differ in the session id only have different images. -/
theorem key_records_layout_witness :
    pdr_key_s.bytes ⟨1, 0x0a000001, 0x100, 0xc0a80002, 0x08080808, 40000, 443, 6⟩
      = [1, 1, 0, 0, 10, 0, 1, 0, 0, 2, 0, 168, 192, 8, 8, 8, 8, 64, 156, 187, 1, 6] ∧
    (pdr_key_s.bytes ⟨1, 0x0a000001, 0x100, 0xc0a80002, 0x08080808, 40000, 443, 6⟩
        = pdr_key_s.bytes ⟨1, 0x0a000001, 0x100, 0xc0a80002, 0x08080808, 40000, 80, 6⟩ ↔
      (⟨1, 0x0a000001, 0x100, 0xc0a80002, 0x08080808, 40000, 443, 6⟩ : pdr_key_s)
        = ⟨1, 0x0a000001, 0x100, 0xc0a80002, 0x08080808, 40000, 80, 6⟩) ∧
    (far_key_s.bytes ⟨7, 1⟩ = far_key_s.bytes ⟨7, 2⟩ ↔ (⟨7, 1⟩ : far_key_s) = ⟨7, 2⟩) :=
  ⟨by decide,
    (key_records_layout ⟨1, 0x0a000001, 0x100, 0xc0a80002, 0x08080808, 40000, 443, 6⟩
      ⟨1, 0x0a000001, 0x100, 0xc0a80002, 0x08080808, 40000, 80, 6⟩ ⟨7, 1⟩ ⟨7, 2⟩
      (by decide) (by decide) (by decide) (by decide)).2.2.2.2⟩

theorem hasAction_encodeActions (s : ActionSet) (a : far_actions_e) :
    hasAction (encodeActions s) a = s.member a := by
  obtain ⟨b0, b1, b2, b3, b4⟩ := s
  cases a <;> cases b0 <;> cases b1 <;> cases b2 <;> cases b3 <;> cases b4 <;> decide

theorem ActionSet_ext (s t : ActionSet) (h : ∀ a, s.member a = t.member a) : s = t := by
  obtain ⟨a0, a1, a2, a3, a4⟩ := s
  obtain ⟨b0, b1, b2, b3, b4⟩ := t
  have h0 := h .FAR_FORWARD_DOWNLINK_ACTION
  have h1 := h .FAR_FORWARD_UPLINK_ACTION
  have h2 := h .FAR_DROP_ACTION
  have h3 := h .FAR_BUFFER_ACTION
  have h4 := h .FAR_NOTIFY_CP_ACTION
  simp only [ActionSet.member] at h0 h1 h2 h3 h4
  subst h0 h1 h2 h3 h4
  rfl

/-- The codes themselves, or-ed together, do not tell the sets apart: the set
holding only the downlink action gives the field value of the empty set. -/
theorem orOfCodes_not_injective :
    orOfCodes ⟨true, false, false, false, false⟩ = orOfCodes ⟨false, false, false, false, false⟩ := by
  decide

/-- C6: with every action held in the bit of `far_value_s.action` whose
position is the action's code, the five codes of `far_actions_e` are distinct
positions below 64, each action is read back from the field independently of
the other four, the field value fits 64 bits, and the 32 action sets have 32
distinct field values. -/
theorem far_action_field_is_a_set :
    (∀ a : far_actions_e, a.code < 64) ∧
    (∀ a b : far_actions_e, a.code = b.code ↔ a = b) ∧
    (∀ (s : ActionSet) (a : far_actions_e), hasAction (encodeActions s) a = s.member a) ∧
    (∀ s : ActionSet, encodeActions s < 2 ^ 64) ∧
    (∀ s t : ActionSet, encodeActions s = encodeActions t ↔ s = t) ∧
    (∀ s : ActionSet, s ∈ ActionSet.all) ∧
    ActionSet.all.length = 32 ∧
    (ActionSet.all.map encodeActions).Nodup := by
  refine ⟨?_, ?_, hasAction_encodeActions, ?_, ?_, ?_, by decide, by decide⟩
  · intro a
    cases a <;> decide
  · intro a b
    cases a <;> cases b <;> decide
  · intro s
    exact Nat.mod_lt _ (by decide)
  · intro s t
    constructor
    · intro e
      apply ActionSet_ext
      intro a
      rw [← hasAction_encodeActions s a, ← hasAction_encodeActions t a, e]
    · intro e
      rw [e]
  · intro s
    obtain ⟨b0, b1, b2, b3, b4⟩ := s
    cases b0 <;> cases b1 <;> cases b2 <;> cases b3 <;> cases b4 <;> decide

/-- C7: the codes of `color_markers_e` increase strictly from green over
yellow to red, the maximum of two codes is the code of the higher-severity
colour, and that maximum is commutative, associative and idempotent with green
as its identity. -/
theorem color_markers_order :
    color_markers_e.QER_GREEN_MARKER.code < color_markers_e.QER_YELLOW_MARKER.code ∧
    color_markers_e.QER_YELLOW_MARKER.code < color_markers_e.QER_RED_MARKER.code ∧
    (∀ a b : color_markers_e, max a.code b.code = (higherSeverity a b).code) ∧
    (∀ a b : color_markers_e, max a.code b.code = max b.code a.code) ∧
    (∀ a b c : color_markers_e,
      max (max a.code b.code) c.code = max a.code (max b.code c.code)) ∧
    (∀ a : color_markers_e, max a.code a.code = a.code) ∧
    (∀ a : color_markers_e,
      max color_markers_e.QER_GREEN_MARKER.code a.code = a.code ∧
      max a.code color_markers_e.QER_GREEN_MARKER.code = a.code) ∧
    (∀ a b : color_markers_e, higherSeverity a b = higherSeverity b a) ∧
    (∀ a b c : color_markers_e,
      higherSeverity (higherSeverity a b) c = higherSeverity a (higherSeverity b c)) ∧
    (∀ a : color_markers_e, higherSeverity a a = a) ∧
    (∀ a : color_markers_e,
      higherSeverity .QER_GREEN_MARKER a = a ∧ higherSeverity a .QER_GREEN_MARKER = a) := by
  refine ⟨by decide, by decide, ?_, ?_, ?_, ?_, ?_, ?_, ?_, ?_, ?_⟩
  · intro a b
    cases a <;> cases b <;> decide
  · intro a b
    exact Nat.max_comm _ _
  · intro a b c
    exact Nat.max_assoc _ _ _
  · intro a
    exact Nat.max_self _
  · intro a
    cases a <;> decide
  · intro a b
    cases a <;> cases b <;> rfl
  · intro a b c
    cases a <;> cases b <;> cases c <;> rfl
  · intro a
    cases a <;> rfl
  · intro a
    cases a <;> exact ⟨rfl, rfl⟩

end upf_ebpf
